import Mathlib

/-!
Verification of `lark/parser_frontends.py`: the frontend coordination layer
pairing parsing engines (LALR, Earley, Nearley) with lexing strategies
(precomputed lexer, contextual lexer, scannerless).

External collaborators (the lexer classes, the three engine modules, the
post-lex object, the callback object and `is_terminal` from `lark.common`)
are modelled at their interface boundary: engine and lexer constructors are
function parameters, and structures record exactly the arguments the
frontend code passes to them.  Python exceptions are modelled with `Except`.
-/

/-- A lexed token: kind name and matched text (position omitted; no frontend
reads it). -/
structure Token where
  kind : String
  text : String
  deriving DecidableEq

/-- Modelled from the spec: a token-kind definition from the lexer
configuration.  `pattern` stands for the string `to_regexp()` returns and
`width` for `sre_parse.parse(pattern).getwidth()`, the pattern's
(minimum, maximum) match length; both methods live outside this file's
source. -/
structure TokenDef where
  name : String
  pattern : String
  width : Nat × Nat
  deriving DecidableEq

/-- Modelled from the spec: the post-lex transform object, exposing
`process` over token sequences and an `always_accept` set of token kinds. -/
structure PostLex where
  process : List Token → List Token
  always_accept : List String

/-- The lexer configuration consumed by the frontends: token table,
ignore-set, optional post-lex transform. -/
structure LexerConf where
  tokens : List TokenDef
  ignore : List String
  postlex : Option PostLex

/-- Modelled from the spec: the callback object of the parser configuration,
as its attribute table resolving semantic-action identifiers to callables of
an abstract type `γ`. -/
structure Callback (γ : Type) where
  attrs : List (String × γ)

/-- The parser configuration: rule triples (name, expansion, action
identifier), the callback object and the start symbol.  `Sym` is the symbol
representation (`String` for the generic configuration handed to frontends;
engine-specific types after translation). -/
structure ParserConf (Sym : Type) (γ : Type) where
  rules : List (String × List Sym × String)
  callback : Callback γ
  start : String

/-- Python exceptions reachable from the frontend code.  `grammarError`
carries the offending pattern and its width, mirroring the two format
arguments of the `GrammarError` message; `assertionError` is the failed
ambiguity assertion; `keyError` a failed dict lookup; `attributeError` a
failed `getattr`. -/
inductive PyError where
  | grammarError (pat : String) (width : Nat × Nat)
  | assertionError
  | keyError
  | attributeError
  deriving DecidableEq

/-- Lookup in a dict built by a Python dict comprehension over an
association list: a later entry for the same key shadows an earlier one,
hence the `reverse`; a missing key raises `KeyError`. -/
def pyDictGet {α : Type} (l : List (String × α)) (k : String) : Except PyError α :=
  match l.reverse.lookup k with
  | some v => Except.ok v
  | none => Except.error PyError.keyError

/-- Python `getattr(callback, a)`: resolves an action identifier against the
callback object, raising `AttributeError` when absent. -/
def getattrE {γ : Type} (cb : Callback γ) (a : String) : Except PyError γ :=
  match cb.attrs.lookup a with
  | some f => Except.ok f
  | none => Except.error PyError.attributeError

/-- Modelled from the spec: the precomputed `Lexer` object, recording the
constructor arguments the frontend passes (`lexer_conf.tokens`,
`ignore=lexer_conf.ignore`) and its externally supplied scanning behavior
`lexFun`. -/
structure PyLexer where
  tokens : List TokenDef
  ignore : List String
  lexFun : String → List Token

/-- Modelled from the spec: the `ContextualLexer` object, recording the
constructor arguments the frontend passes (token table, the state-index to
valid-token-kinds mapping, the ignore-set, the always-accept set) together
with its externally supplied behavior: the scan function and the
`set_parser_state` handle of abstract type `σ`. -/
structure CtxLexer (σ : Type) where
  tokens : List TokenDef
  states_to_tokens : List (Nat × List String)
  ignore : List String
  always_accept : List String
  lexFun : String → List Token
  set_parser_state : σ

/-- Modelled from the spec: the deterministic engine `lalr_parser.Parser`.
`states_idx` is `analysis.states_idx`, the per-state transition table
(state index to a dict keyed by token kind, with entries of abstract type
`β`); `parseFun` is its `parse(seq, set_state=None)` method, taking the
optional state-setter handle and returning a tree of abstract type `τ` or
an engine-internal error. -/
structure LalrParser (σ β τ : Type) where
  states_idx : List (Nat × List (String × β))
  parseFun : List Token → Option σ → Except PyError τ

/-- A rule in the shape the Nearley engine expects: name, translated
symbols, resolved postprocess callable. -/
structure NearleyRule (Sym : Type) (γ : Type) where
  name : String
  symbols : List Sym
  postprocess : γ

/-- Symbol representation handed to the Nearley engine by the lexed
frontend: a terminal becomes the pair `(sym, None)` (the second component
is always `None` here), a nonterminal stays the bare rule-name string. -/
inductive NSym where
  | tok (s : String) (m : Option Unit)
  | nt (s : String)
  deriving DecidableEq

/-- Symbol representation handed to the Earley engine by the lexed
frontend: a terminal becomes the one-tuple `(sym,)`, a nonterminal stays
the bare rule-name string. -/
inductive ESym where
  | tok (s : String)
  | nt (s : String)
  deriving DecidableEq

/-- Symbol representation handed to the Nearley engine by the scannerless
frontend: a terminal becomes the pair `(sym, re.compile(regexp))`, recorded
here as the symbol name with the token definition whose pattern was
compiled; a nonterminal stays the bare string. -/
inductive NScanSym where
  | tok (s : String) (t : TokenDef)
  | nt (s : String)
  deriving DecidableEq

/-- Symbol representation handed to the Earley engine by the scannerless
frontend: a terminal becomes the one-tuple `(re.compile(regexp).match,)`,
recorded here as the token definition whose pattern was compiled; a
nonterminal stays the bare string. -/
inductive EScanSym where
  | tok (t : TokenDef)
  | nt (s : String)
  deriving DecidableEq

/-- `WithLexer`: base behavior shared by the lexer-backed frontends.  Holds
the lexer configuration and a `Lexer` built from its token table and
ignore-set. -/
structure WithLexer where
  lexer_conf : LexerConf
  lexer : PyLexer

/-- `WithLexer.__init__`: stores the configuration and builds the lexer
from `lexer_conf.tokens` and `ignore=lexer_conf.ignore`; `mkLexer` is the
external `Lexer` constructor supplying the scanning behavior. -/
def WithLexer.init (mkLexer : List TokenDef → List String → (String → List Token))
    (lexer_conf : LexerConf) : WithLexer :=
  { lexer_conf := lexer_conf
    lexer := { tokens := lexer_conf.tokens
               ignore := lexer_conf.ignore
               lexFun := mkLexer lexer_conf.tokens lexer_conf.ignore } }

/-- `WithLexer.lex`: runs the lexer over the text, then pipes the stream
through the post-lex transform when one is configured. -/
def WithLexer.lex (self : WithLexer) (text : String) : List Token :=
  let stream := self.lexer.lexFun text
  match self.lexer_conf.postlex with
  | some pl => pl.process stream
  | none => stream

/-- The `LALR` frontend: `WithLexer` base plus the parser configuration and
the deterministic engine. -/
structure LALR (σ β τ : Type) extends WithLexer where
  parser_conf : ParserConf String String
  parser : LalrParser σ β τ

/-- `LALR.__init__`: initializes the `WithLexer` base, stores the parser
configuration and builds the deterministic engine from it (`mkLalr` is the
external `lalr_parser.Parser` constructor). -/
def LALR.init {σ β τ : Type} (mkLexer : List TokenDef → List String → (String → List Token))
    (mkLalr : ParserConf String String → LalrParser σ β τ)
    (lexer_conf : LexerConf) (parser_conf : ParserConf String String) : LALR σ β τ :=
  { toWithLexer := WithLexer.init mkLexer lexer_conf
    parser_conf := parser_conf
    parser := mkLalr parser_conf }

/-- `LALR.parse`: materializes the token list via the base `lex` and drives
the engine (no state-setter).  The returned second component is the
instance after the call; the method assigns to no attribute, so it is the
instance itself. -/
def LALR.parse {σ β τ : Type} (self : LALR σ β τ) (text : String) :
    Except PyError τ × LALR σ β τ :=
  let tokens := self.toWithLexer.lex text
  (self.parser.parseFun tokens none, self)

/-- The `LALR_ContextualLexer` frontend: both configurations, the
deterministic engine and the contextual lexer built from the engine's
transition table. -/
structure LALR_ContextualLexer (σ β τ : Type) where
  lexer_conf : LexerConf
  parser_conf : ParserConf String String
  parser : LalrParser σ β τ
  lexer : CtxLexer σ

/-- `LALR_ContextualLexer.__init__`: stores the configurations, builds the
deterministic engine first, computes `d = {idx: t.keys() for idx, t in
parser.analysis.states_idx.items()}` and constructs the contextual lexer
from the token table, `d`, the ignore-set and the postlex object's
`always_accept` (the empty tuple when no postlex is configured).
`mkCtxLex` is the external `ContextualLexer` constructor, supplying the
scan function and the `set_parser_state` handle from those arguments. -/
def LALR_ContextualLexer.init {σ β τ : Type}
    (mkLalr : ParserConf String String → LalrParser σ β τ)
    (mkCtxLex : List TokenDef → List (Nat × List String) → List String → List String →
      (String → List Token) × σ)
    (lexer_conf : LexerConf) (parser_conf : ParserConf String String) :
    LALR_ContextualLexer σ β τ :=
  let p := mkLalr parser_conf
  let d := p.states_idx.map fun st => (st.1, st.2.map Prod.fst)
  let aa : List String :=
    match lexer_conf.postlex with
    | some pl => pl.always_accept
    | none => []
  let behavior := mkCtxLex lexer_conf.tokens d lexer_conf.ignore aa
  { lexer_conf := lexer_conf
    parser_conf := parser_conf
    parser := p
    lexer := { tokens := lexer_conf.tokens
               states_to_tokens := d
               ignore := lexer_conf.ignore
               always_accept := aa
               lexFun := behavior.1
               set_parser_state := behavior.2 } }

/-- `LALR_ContextualLexer.parse`: lexes with the stored contextual lexer,
pipes through the post-lex transform when configured, and drives the engine
passing the lexer's `set_parser_state` handle.  No attribute is assigned,
so the returned instance is unchanged. -/
def LALR_ContextualLexer.parse {σ β τ : Type} (self : LALR_ContextualLexer σ β τ)
    (text : String) : Except PyError τ × LALR_ContextualLexer σ β τ :=
  let tokens := self.lexer.lexFun text
  let tokens2 :=
    match self.lexer_conf.postlex with
    | some pl => pl.process tokens
    | none => tokens
  (self.parser.parseFun tokens2 (some self.lexer.set_parser_state), self)

/-- `Nearley._prepare_expansion`: `[(sym, None) if is_terminal(sym) else sym
for sym in expansion]`.  `isTerm` is `is_terminal` from `lark.common`
(outside this file's source). -/
def Nearley.prepare_expansion (isTerm : String → Bool) (expansion : List String) :
    List NSym :=
  expansion.map fun sym => if isTerm sym then NSym.tok sym none else NSym.nt sym

/-- The `Nearley` frontend: `WithLexer` base plus the chart engine, kept as
its `parse` function over token lists returning all completed derivations. -/
structure Nearley (γ τ : Type) extends WithLexer where
  parser : List Token → List τ

/-- The per-rule loop of `Nearley.__init__`: builds the engine's rule dicts
left to right; within a rule the symbols are translated first, then the
postprocess callable is resolved with `getattr` (which may raise). -/
def Nearley.buildRules {γ : Type} (isTerm : String → Bool) (cb : Callback γ) :
    List (String × List String × String) → Except PyError (List (NearleyRule NSym γ))
  | [] => Except.ok []
  | r :: rest =>
    let syms := Nearley.prepare_expansion isTerm r.2.1
    match getattrE cb r.2.2 with
    | Except.error e => Except.error e
    | Except.ok f =>
      match Nearley.buildRules isTerm cb rest with
      | Except.error e => Except.error e
      | Except.ok rs => Except.ok ({ name := r.1, symbols := syms, postprocess := f } :: rs)

/-- `Nearley.__init__`: initializes the `WithLexer` base, translates every
rule (resolving each action identifier with `getattr`, so a missing
attribute aborts construction) and builds the engine (`mkNearley` is the
external `nearley.Parser` constructor). -/
def Nearley.init {γ τ : Type} (isTerm : String → Bool)
    (mkLexer : List TokenDef → List String → (String → List Token))
    (mkNearley : List (NearleyRule NSym γ) → String → (List Token → List τ))
    (lexer_conf : LexerConf) (parser_conf : ParserConf String γ) :
    Except PyError (Nearley γ τ) :=
  let wl := WithLexer.init mkLexer lexer_conf
  match Nearley.buildRules isTerm parser_conf.callback parser_conf.rules with
  | Except.error e => Except.error e
  | Except.ok rules =>
    Except.ok { toWithLexer := wl, parser := mkNearley rules parser_conf.start }

/-- `Nearley.parse`: lexes via the base, asks the engine for all completed
parses, asserts exactly one and returns it; otherwise the assertion fails.
No attribute is assigned, so the returned instance is unchanged. -/
def Nearley.parse {γ τ : Type} (self : Nearley γ τ) (text : String) :
    Except PyError τ × Nearley γ τ :=
  let tokens := self.toWithLexer.lex text
  match self.parser tokens with
  | [t] => (Except.ok t, self)
  | _ => (Except.error PyError.assertionError, self)

/-- `Earley._prepare_expansion`: `[(sym,) if is_terminal(sym) else sym for
sym in expansion]`. -/
def Earley.prepare_expansion (isTerm : String → Bool) (expansion : List String) :
    List ESym :=
  expansion.map fun sym => if isTerm sym then ESym.tok sym else ESym.nt sym

/-- The rule translation of `Earley.__init__`: `[(n, prepare(x), a) for
n, x, a in parser_conf.rules]` — the action identifier `a` is passed
through unresolved. -/
def Earley.mkRules (isTerm : String → Bool)
    (rules : List (String × List String × String)) :
    List (String × List ESym × String) :=
  rules.map fun r => (r.1, Earley.prepare_expansion isTerm r.2.1, r.2.2)

/-- The `Earley` frontend: `WithLexer` base plus the chart engine, kept as
its `parse` function over token lists returning all completed derivations. -/
structure Earley (γ τ : Type) extends WithLexer where
  parser : List Token → List τ

/-- `Earley.__init__`: initializes the `WithLexer` base, translates the
rules and builds the engine from `ParserConf(rules, parser_conf.callback,
parser_conf.start)` (`mkEarley` is the external `earley.Parser`
constructor).  Construction never consults the callback's attributes. -/
def Earley.init {γ τ : Type} (isTerm : String → Bool)
    (mkLexer : List TokenDef → List String → (String → List Token))
    (mkEarley : ParserConf ESym γ → (List Token → List τ))
    (lexer_conf : LexerConf) (parser_conf : ParserConf String γ) : Earley γ τ :=
  { toWithLexer := WithLexer.init mkLexer lexer_conf
    parser := mkEarley { rules := Earley.mkRules isTerm parser_conf.rules
                         callback := parser_conf.callback
                         start := parser_conf.start } }

/-- `Earley.parse`: lexes via the base, asks the engine for all completed
parses, asserts exactly one and returns it; otherwise the assertion fails.
No attribute is assigned, so the returned instance is unchanged. -/
def Earley.parse {γ τ : Type} (self : Earley γ τ) (text : String) :
    Except PyError τ × Earley γ τ :=
  let tokens := self.toWithLexer.lex text
  match self.parser tokens with
  | [t] => (Except.ok t, self)
  | _ => (Except.error PyError.assertionError, self)

/-- The dict `{t.name: t for t in lexer_conf.tokens}` built by both
scannerless frontends. -/
def tokenByName (tokens : List TokenDef) : List (String × TokenDef) :=
  tokens.map fun t => (t.name, t)

/-- `Nearley_NoLex._prepare_expansion`: for each terminal, looks its token
definition up by name (a missing name raises `KeyError`), checks the
pattern's width is exactly `(1, 1)` (otherwise raises `GrammarError` with
the pattern and width) and yields `(sym, re.compile(regexp))`; a
nonterminal is yielded unchanged.  The generator is forced by `list(...)`
inside `__init__`, so the first offending symbol aborts construction. -/
def Nearley_NoLex.prepare_expansion (isTerm : String → Bool)
    (tbl : List (String × TokenDef)) :
    List String → Except PyError (List NScanSym)
  | [] => Except.ok []
  | sym :: rest =>
    if isTerm sym then
      match pyDictGet tbl sym with
      | Except.error e => Except.error e
      | Except.ok t =>
        if t.width = (1, 1) then
          match Nearley_NoLex.prepare_expansion isTerm tbl rest with
          | Except.error e => Except.error e
          | Except.ok res => Except.ok (NScanSym.tok sym t :: res)
        else Except.error (PyError.grammarError t.pattern t.width)
    else
      match Nearley_NoLex.prepare_expansion isTerm tbl rest with
      | Except.error e => Except.error e
      | Except.ok res => Except.ok (NScanSym.nt sym :: res)

/-- The `Nearley_NoLex` scannerless frontend: the token-by-name dict and the
chart engine, kept as its `parse` function over raw text. -/
structure Nearley_NoLex (γ τ : Type) where
  token_by_name : List (String × TokenDef)
  parser : String → List τ

/-- The per-rule loop of `Nearley_NoLex.__init__`: for each rule the
symbols are translated first (width check and token lookup may raise), then
the postprocess callable is resolved with `getattr` (which may raise). -/
def Nearley_NoLex.buildRules {γ : Type} (isTerm : String → Bool)
    (tbl : List (String × TokenDef)) (cb : Callback γ) :
    List (String × List String × String) →
    Except PyError (List (NearleyRule NScanSym γ))
  | [] => Except.ok []
  | r :: rest =>
    match Nearley_NoLex.prepare_expansion isTerm tbl r.2.1 with
    | Except.error e => Except.error e
    | Except.ok syms =>
      match getattrE cb r.2.2 with
      | Except.error e => Except.error e
      | Except.ok f =>
        match Nearley_NoLex.buildRules isTerm tbl cb rest with
        | Except.error e => Except.error e
        | Except.ok rs =>
          Except.ok ({ name := r.1, symbols := syms, postprocess := f } :: rs)

/-- `Nearley_NoLex.__init__`: builds the token-by-name dict from the lexer
configuration's token table (nothing else from the lexer configuration is
read), translates the rules and builds the engine. -/
def Nearley_NoLex.init {γ τ : Type} (isTerm : String → Bool)
    (mkNearley : List (NearleyRule NScanSym γ) → String → (String → List τ))
    (lexer_conf : LexerConf) (parser_conf : ParserConf String γ) :
    Except PyError (Nearley_NoLex γ τ) :=
  let tbl := tokenByName lexer_conf.tokens
  match Nearley_NoLex.buildRules isTerm tbl parser_conf.callback parser_conf.rules with
  | Except.error e => Except.error e
  | Except.ok rules =>
    Except.ok { token_by_name := tbl, parser := mkNearley rules parser_conf.start }

/-- `Nearley_NoLex.parse`: passes the raw text directly to the engine (no
lexing), asserts exactly one completed parse and returns it.  No attribute
is assigned, so the returned instance is unchanged. -/
def Nearley_NoLex.parse {γ τ : Type} (self : Nearley_NoLex γ τ) (text : String) :
    Except PyError τ × Nearley_NoLex γ τ :=
  match self.parser text with
  | [t] => (Except.ok t, self)
  | _ => (Except.error PyError.assertionError, self)

/-- `Earley_NoLex._prepare_expansion`: like the Nearley variant but yields
`(re.compile(regexp).match,)` for a terminal, recorded as the token
definition whose pattern was compiled. -/
def Earley_NoLex.prepare_expansion (isTerm : String → Bool)
    (tbl : List (String × TokenDef)) :
    List String → Except PyError (List EScanSym)
  | [] => Except.ok []
  | sym :: rest =>
    if isTerm sym then
      match pyDictGet tbl sym with
      | Except.error e => Except.error e
      | Except.ok t =>
        if t.width = (1, 1) then
          match Earley_NoLex.prepare_expansion isTerm tbl rest with
          | Except.error e => Except.error e
          | Except.ok res => Except.ok (EScanSym.tok t :: res)
        else Except.error (PyError.grammarError t.pattern t.width)
    else
      match Earley_NoLex.prepare_expansion isTerm tbl rest with
      | Except.error e => Except.error e
      | Except.ok res => Except.ok (EScanSym.nt sym :: res)

/-- The `Earley_NoLex` scannerless frontend: the token-by-name dict and the
chart engine, kept as its `parse` function over raw text. -/
structure Earley_NoLex (γ τ : Type) where
  token_by_name : List (String × TokenDef)
  parser : String → List τ

/-- The per-rule loop of `Earley_NoLex.__init__`: `[(n,
list(prepare(x)), a) for n, x, a in parser_conf.rules]` — the action
identifier `a` is passed through unresolved. -/
def Earley_NoLex.buildRules (isTerm : String → Bool)
    (tbl : List (String × TokenDef)) :
    List (String × List String × String) →
    Except PyError (List (String × List EScanSym × String))
  | [] => Except.ok []
  | r :: rest =>
    match Earley_NoLex.prepare_expansion isTerm tbl r.2.1 with
    | Except.error e => Except.error e
    | Except.ok syms =>
      match Earley_NoLex.buildRules isTerm tbl rest with
      | Except.error e => Except.error e
      | Except.ok rs => Except.ok ((r.1, syms, r.2.2) :: rs)

/-- `Earley_NoLex.__init__`: builds the token-by-name dict from the lexer
configuration's token table (nothing else from the lexer configuration is
read), translates the rules and builds the engine from
`ParserConf(rules, parser_conf.callback, parser_conf.start)`. -/
def Earley_NoLex.init {γ τ : Type} (isTerm : String → Bool)
    (mkEarley : ParserConf EScanSym γ → (String → List τ))
    (lexer_conf : LexerConf) (parser_conf : ParserConf String γ) :
    Except PyError (Earley_NoLex γ τ) :=
  let tbl := tokenByName lexer_conf.tokens
  match Earley_NoLex.buildRules isTerm tbl parser_conf.rules with
  | Except.error e => Except.error e
  | Except.ok rules =>
    Except.ok { token_by_name := tbl
                parser := mkEarley { rules := rules
                                     callback := parser_conf.callback
                                     start := parser_conf.start } }

/-- `Earley_NoLex.parse`: passes the raw text directly to the engine (no
lexing), asserts exactly one completed parse and returns it.  No attribute
is assigned, so the returned instance is unchanged. -/
def Earley_NoLex.parse {γ τ : Type} (self : Earley_NoLex γ τ) (text : String) :
    Except PyError τ × Earley_NoLex γ τ :=
  match self.parser text with
  | [t] => (Except.ok t, self)
  | _ => (Except.error PyError.assertionError, self)

/-- The four frontend classes the registry maps identifiers to. -/
inductive EngineCtor where
  | LALR
  | Earley
  | Earley_NoLex
  | LALR_ContextualLexer
  deriving DecidableEq

/-- `ENGINE_DICT`: the registry mapping engine identifiers to frontend
constructors. -/
def ENGINE_DICT : List (String × EngineCtor) :=
  [("lalr", EngineCtor.LALR),
   ("earley", EngineCtor.Earley),
   ("earley_nolex", EngineCtor.Earley_NoLex),
   ("lalr_contextual_lexer", EngineCtor.LALR_ContextualLexer)]

/-- Whether a terminal symbol of an expansion has a token definition in the
table whose width is not exactly `(1, 1)`. -/
def expansionBadWidth (isTerm : String → Bool) (tbl : List (String × TokenDef))
    (expansion : List String) : Bool :=
  expansion.any fun sym =>
    isTerm sym &&
      match tbl.reverse.lookup sym with
      | some t => decide (t.width ≠ (1, 1))
      | none => false

/-- Whether every terminal symbol of an expansion has an entry in the token
table. -/
def expansionCovered (isTerm : String → Bool) (tbl : List (String × TokenDef))
    (expansion : List String) : Bool :=
  expansion.all fun sym => !(isTerm sym) || (tbl.reverse.lookup sym).isSome

/-- Whether some terminal symbol occurring in a rule's right-hand side has
a token definition (found in the table the scannerless frontends build)
whose width is not exactly `(1, 1)`. -/
def someBadWidth (isTerm : String → Bool) (tbl : List (String × TokenDef))
    (rules : List (String × List String × String)) : Bool :=
  rules.any fun r => expansionBadWidth isTerm tbl r.2.1

/-- Whether every terminal symbol occurring in a rule's right-hand side has
an entry in the token table. -/
def termsCovered (isTerm : String → Bool) (tbl : List (String × TokenDef))
    (rules : List (String × List String × String)) : Bool :=
  rules.all fun r => expansionCovered isTerm tbl r.2.1

/-- Whether every rule's semantic-action identifier resolves against the
callback object's attribute table. -/
def actionsResolve {γ : Type} (cb : Callback γ) (rules : List (String × List String × String)) : Bool :=
  rules.all fun r => (cb.attrs.lookup r.2.2).isSome

/-- A token definition whose pattern matches exactly two characters (width
`(2, 2)`): a scannerless precondition violation. -/
def widthTwoTokenDef : TokenDef :=
  { name := "A", pattern := "aa", width := (2, 2) }

/-- A token definition whose pattern matches exactly one character. -/
def unitWidthTokenDef : TokenDef :=
  { name := "A", pattern := "a", width := (1, 1) }

/-- A lexer configuration whose only token has width `(2, 2)`. -/
def lexerConfBad : LexerConf :=
  { tokens := [widthTwoTokenDef], ignore := [], postlex := none }

/-- A minimal lexer configuration: one unit-width token, nothing ignored,
no post-lex transform. -/
def lexerConfPlain : LexerConf :=
  { tokens := [unitWidthTokenDef], ignore := [], postlex := none }

/-- A lexer configuration with the same token table as `lexerConfPlain` but
a different ignore-set and a configured post-lex transform. -/
def lexerConfDecorated : LexerConf :=
  { tokens := [unitWidthTokenDef], ignore := ["WS"],
    postlex := some { process := fun ts => ts, always_accept := ["NL"] } }

/-- A one-rule parser configuration whose single rule uses terminal `A` and
action identifier `f`, resolvable in the callback table. -/
def parserConfA : ParserConf String Nat :=
  { rules := [("start", ["A"], "f")], callback := { attrs := [("f", 0)] },
    start := "start" }

/-! ## Helper lemmas -/

/-- `LALR.parse` returns its instance unchanged. -/
theorem lalr_parse_snd {σ β τ : Type} (f : LALR σ β τ) (text : String) :
    (f.parse text).2 = f := rfl

/-- `LALR_ContextualLexer.parse` returns its instance unchanged. -/
theorem lalr_ctx_parse_snd {σ β τ : Type} (f : LALR_ContextualLexer σ β τ)
    (text : String) : (f.parse text).2 = f := rfl

/-- `Nearley.parse` returns its instance unchanged. -/
theorem nearley_parse_snd {γ τ : Type} (f : Nearley γ τ) (text : String) :
    (f.parse text).2 = f := by
  unfold Nearley.parse
  dsimp only
  split <;> rfl

/-- `Earley.parse` returns its instance unchanged. -/
theorem earley_parse_snd {γ τ : Type} (f : Earley γ τ) (text : String) :
    (f.parse text).2 = f := by
  unfold Earley.parse
  dsimp only
  split <;> rfl

/-- `Nearley_NoLex.parse` returns its instance unchanged. -/
theorem nearley_nolex_parse_snd {γ τ : Type} (f : Nearley_NoLex γ τ) (text : String) :
    (f.parse text).2 = f := by
  unfold Nearley_NoLex.parse
  split <;> rfl

/-- `Earley_NoLex.parse` returns its instance unchanged. -/
theorem earley_nolex_parse_snd {γ τ : Type} (f : Earley_NoLex γ τ) (text : String) :
    (f.parse text).2 = f := by
  unfold Earley_NoLex.parse
  split <;> rfl

/-! ## Claim theorems -/

/-- C1: constructing the contextual-lexing LALR frontend builds the
deterministic engine first, derives from its per-state transition table the
state-index to valid-token-kinds mapping, and constructs the contextual
lexer from exactly that mapping plus the post-lex configuration's
always-accept set (empty when no post-lex is configured); the mapping is
fixed at construction and `parse` leaves the instance, hence the mapping,
unchanged. -/
theorem contextual_frontend_engine_first_mapping_once (σ β τ : Type)
    (mkLalr : ParserConf String String → LalrParser σ β τ)
    (mkCtxLex : List TokenDef → List (Nat × List String) → List String → List String →
      (String → List Token) × σ)
    (lexer_conf : LexerConf) (parser_conf : ParserConf String String) :
    let f := LALR_ContextualLexer.init mkLalr mkCtxLex lexer_conf parser_conf
    f.parser = mkLalr parser_conf
    ∧ f.lexer.states_to_tokens =
        (mkLalr parser_conf).states_idx.map (fun st => (st.1, st.2.map Prod.fst))
    ∧ f.lexer.always_accept =
        (match lexer_conf.postlex with
         | some pl => pl.always_accept
         | none => [])
    ∧ (f.lexer.lexFun, f.lexer.set_parser_state) =
        mkCtxLex lexer_conf.tokens f.lexer.states_to_tokens lexer_conf.ignore
          f.lexer.always_accept
    ∧ (∀ text, (f.parse text).2 = f) := by
  refine ⟨rfl, rfl, rfl, rfl, fun text => rfl⟩

/-- C5: `WithLexer.lex` returns the lexing strategy's token sequence piped
through the post-lex transform's `process` when one is configured, and the
raw sequence unchanged otherwise. -/
theorem withLexer_lex_postlex_pipeline
    (mkLexer : List TokenDef → List String → (String → List Token))
    (lexer_conf : LexerConf) (text : String) :
    (WithLexer.init mkLexer lexer_conf).lex text =
      (match lexer_conf.postlex with
       | some pl => pl.process (mkLexer lexer_conf.tokens lexer_conf.ignore text)
       | none => mkLexer lexer_conf.tokens lexer_conf.ignore text) := by
  cases h : lexer_conf.postlex <;> simp [WithLexer.init, WithLexer.lex, h]

/-- C7: on every frontend variant, calling `parse` twice with the same text
on the same instance yields the same derivation result both times (the
instance after the first call is the instance itself, and the engines hold
no leaking per-parse state in this model). -/
theorem parse_idempotent_every_frontend (σ β γ τ : Type)
    (fL : LALR σ β τ) (fC : LALR_ContextualLexer σ β τ)
    (fN : Nearley γ τ) (fE : Earley γ τ)
    (fNN : Nearley_NoLex γ τ) (fEN : Earley_NoLex γ τ) (text : String) :
    ((fL.parse text).2.parse text).1 = (fL.parse text).1
    ∧ ((fC.parse text).2.parse text).1 = (fC.parse text).1
    ∧ ((fN.parse text).2.parse text).1 = (fN.parse text).1
    ∧ ((fE.parse text).2.parse text).1 = (fE.parse text).1
    ∧ ((fNN.parse text).2.parse text).1 = (fNN.parse text).1
    ∧ ((fEN.parse text).2.parse text).1 = (fEN.parse text).1 := by
  refine ⟨?_, ?_, ?_, ?_, ?_, ?_⟩
  · rw [lalr_parse_snd]
  · rw [lalr_ctx_parse_snd]
  · rw [nearley_parse_snd]
  · rw [earley_parse_snd]
  · rw [nearley_nolex_parse_snd]
  · rw [earley_nolex_parse_snd]

/-- C8: on every frontend variant, `parse` leaves the instance — in
particular the lexer configuration and the parser configuration it holds —
unchanged, whether the call returns a tree or an error. -/
theorem parse_never_mutates_configs (σ β γ τ : Type)
    (fL : LALR σ β τ) (fC : LALR_ContextualLexer σ β τ)
    (fN : Nearley γ τ) (fE : Earley γ τ)
    (fNN : Nearley_NoLex γ τ) (fEN : Earley_NoLex γ τ) (text : String) :
    ((fL.parse text).2.lexer_conf = fL.lexer_conf
      ∧ (fL.parse text).2.parser_conf = fL.parser_conf)
    ∧ ((fC.parse text).2.lexer_conf = fC.lexer_conf
      ∧ (fC.parse text).2.parser_conf = fC.parser_conf)
    ∧ (fN.parse text).2.lexer_conf = fN.lexer_conf
    ∧ (fE.parse text).2.lexer_conf = fE.lexer_conf
    ∧ (fNN.parse text).2 = fNN
    ∧ (fEN.parse text).2 = fEN := by
  refine ⟨⟨rfl, rfl⟩, ⟨rfl, rfl⟩, ?_, ?_, ?_, ?_⟩
  · rw [nearley_parse_snd]
  · rw [earley_parse_snd]
  · exact nearley_nolex_parse_snd fNN text
  · exact earley_nolex_parse_snd fEN text

/-- C6: in both lexed chart-engine frontends, rule translation maps each
symbol in place (lengths preserved): a terminal is wrapped in the engine's
marker structure carrying the symbol name, a nonterminal passes through as
the bare name, and in both representations the wrapped terminal form is
distinguishable from every nonterminal form. -/
theorem chart_rule_translation_marks_terminals (isTerm : String → Bool)
    (expansion : List String) :
    (Nearley.prepare_expansion isTerm expansion).length = expansion.length
    ∧ (Earley.prepare_expansion isTerm expansion).length = expansion.length
    ∧ (∀ i : Nat, (Nearley.prepare_expansion isTerm expansion)[i]? =
        (expansion[i]?).map (fun sym =>
          if isTerm sym then NSym.tok sym none else NSym.nt sym))
    ∧ (∀ i : Nat, (Earley.prepare_expansion isTerm expansion)[i]? =
        (expansion[i]?).map (fun sym =>
          if isTerm sym then ESym.tok sym else ESym.nt sym))
    ∧ (∀ s m s2, NSym.tok s m ≠ NSym.nt s2)
    ∧ (∀ s s2, ESym.tok s ≠ ESym.nt s2) := by
  refine ⟨?_, ?_, ?_, ?_, ?_, ?_⟩
  · simp [Nearley.prepare_expansion]
  · simp [Earley.prepare_expansion]
  · intro i
    simp [Nearley.prepare_expansion]
  · intro i
    simp [Earley.prepare_expansion]
  · intro s m s2 h
    exact NSym.noConfusion h
  · intro s s2 h
    exact ESym.noConfusion h

/-- C2: every chart-engine frontend's `parse` returns the engine's single
derivation when exactly one is produced, and fails with the ambiguity
assertion whenever the engine returns zero or more than one derivation. -/
theorem chart_parse_asserts_unique_derivation (γ τ : Type)
    (fN : Nearley γ τ) (fE : Earley γ τ) (fNN : Nearley_NoLex γ τ)
    (fEN : Earley_NoLex γ τ) (text : String) :
    ((∀ t, fN.parser (fN.toWithLexer.lex text) = [t] →
        (fN.parse text).1 = Except.ok t)
      ∧ ((fN.parser (fN.toWithLexer.lex text)).length ≠ 1 →
        (fN.parse text).1 = Except.error PyError.assertionError))
    ∧ ((∀ t, fE.parser (fE.toWithLexer.lex text) = [t] →
        (fE.parse text).1 = Except.ok t)
      ∧ ((fE.parser (fE.toWithLexer.lex text)).length ≠ 1 →
        (fE.parse text).1 = Except.error PyError.assertionError))
    ∧ ((∀ t, fNN.parser text = [t] → (fNN.parse text).1 = Except.ok t)
      ∧ ((fNN.parser text).length ≠ 1 →
        (fNN.parse text).1 = Except.error PyError.assertionError))
    ∧ ((∀ t, fEN.parser text = [t] → (fEN.parse text).1 = Except.ok t)
      ∧ ((fEN.parser text).length ≠ 1 →
        (fEN.parse text).1 = Except.error PyError.assertionError)) := by
  refine ⟨⟨?_, ?_⟩, ⟨?_, ?_⟩, ⟨?_, ?_⟩, ⟨?_, ?_⟩⟩
  · intro t ht
    simp [Nearley.parse, ht]
  · intro h
    cases hres : fN.parser (fN.toWithLexer.lex text) with
    | nil => simp [Nearley.parse, hres]
    | cons a l =>
      cases l with
      | nil => exact absurd (by rw [hres]; rfl) h
      | cons b l2 => simp [Nearley.parse, hres]
  · intro t ht
    simp [Earley.parse, ht]
  · intro h
    cases hres : fE.parser (fE.toWithLexer.lex text) with
    | nil => simp [Earley.parse, hres]
    | cons a l =>
      cases l with
      | nil => exact absurd (by rw [hres]; rfl) h
      | cons b l2 => simp [Earley.parse, hres]
  · intro t ht
    simp [Nearley_NoLex.parse, ht]
  · intro h
    cases hres : fNN.parser text with
    | nil => simp [Nearley_NoLex.parse, hres]
    | cons a l =>
      cases l with
      | nil => exact absurd (by rw [hres]; rfl) h
      | cons b l2 => simp [Nearley_NoLex.parse, hres]
  · intro t ht
    simp [Earley_NoLex.parse, ht]
  · intro h
    cases hres : fEN.parser text with
    | nil => simp [Earley_NoLex.parse, hres]
    | cons a l =>
      cases l with
      | nil => exact absurd (by rw [hres]; rfl) h
      | cons b l2 => simp [Earley_NoLex.parse, hres]

/-- C4: the registry maps exactly the identifiers `lalr`, `earley`,
`earley_nolex` and `lalr_contextual_lexer` to the four frontend
constructors; any other identifier fails the lookup (a key error, surfaced
as the configuration error), and the lookup yields only a constructor tag —
no frontend or engine is built by it. -/
theorem engine_dict_exactly_four (s : String) :
    pyDictGet ENGINE_DICT ("lalr") = Except.ok EngineCtor.LALR
    ∧ pyDictGet ENGINE_DICT ("earley") = Except.ok EngineCtor.Earley
    ∧ pyDictGet ENGINE_DICT ("earley_nolex") = Except.ok EngineCtor.Earley_NoLex
    ∧ pyDictGet ENGINE_DICT ("lalr_contextual_lexer") =
        Except.ok EngineCtor.LALR_ContextualLexer
    ∧ (s ≠ "lalr" → s ≠ "earley" → s ≠ "earley_nolex" →
        s ≠ "lalr_contextual_lexer" →
        pyDictGet ENGINE_DICT s = Except.error PyError.keyError) := by
  refine ⟨rfl, rfl, rfl, rfl, ?_⟩
  intro h1 h2 h3 h4
  have b1 : (s == "lalr") = false := beq_eq_false_iff_ne.mpr h1
  have b2 : (s == "earley") = false := beq_eq_false_iff_ne.mpr h2
  have b3 : (s == "earley_nolex") = false := beq_eq_false_iff_ne.mpr h3
  have b4 : (s == "lalr_contextual_lexer") = false := beq_eq_false_iff_ne.mpr h4
  simp [pyDictGet, ENGINE_DICT, List.lookup, b1, b2, b3, b4]

/-- C9: scannerless frontends read only the token table of the lexer
configuration: two configurations with identical token tables but different
ignore-sets or post-lex transforms give identical construction results, and
hence identical parse results. -/
theorem scannerless_independent_of_ignore_postlex (γ τ : Type)
    (isTerm : String → Bool)
    (mkEarley : ParserConf EScanSym γ → (String → List τ))
    (mkNearley : List (NearleyRule NScanSym γ) → String → (String → List τ))
    (lc1 lc2 : LexerConf) (pc : ParserConf String γ)
    (h : lc1.tokens = lc2.tokens) :
    Earley_NoLex.init isTerm mkEarley lc1 pc = Earley_NoLex.init isTerm mkEarley lc2 pc
    ∧ Nearley_NoLex.init isTerm mkNearley lc1 pc =
        Nearley_NoLex.init isTerm mkNearley lc2 pc
    ∧ (∀ text, (Earley_NoLex.init isTerm mkEarley lc1 pc).map
          (fun f => (f.parse text).1) =
        (Earley_NoLex.init isTerm mkEarley lc2 pc).map (fun f => (f.parse text).1))
    ∧ (∀ text, (Nearley_NoLex.init isTerm mkNearley lc1 pc).map
          (fun f => (f.parse text).1) =
        (Nearley_NoLex.init isTerm mkNearley lc2 pc).map
          (fun f => (f.parse text).1)) := by
  have he : Earley_NoLex.init isTerm mkEarley lc1 pc =
      Earley_NoLex.init isTerm mkEarley lc2 pc := by
    unfold Earley_NoLex.init
    rw [h]
  have hn : Nearley_NoLex.init isTerm mkNearley lc1 pc =
      Nearley_NoLex.init isTerm mkNearley lc2 pc := by
    unfold Nearley_NoLex.init
    rw [h]
  exact ⟨he, hn, fun text => by rw [he], fun text => by rw [hn]⟩

/-- C9 witness: two concrete configurations sharing the token table but
differing in ignore-set and post-lex transform construct identical
scannerless frontends. -/
theorem scannerless_independent_witness :
    Earley_NoLex.init (fun s => s == "A") (fun _ => fun _ => ([] : List Nat))
        lexerConfPlain parserConfA =
      Earley_NoLex.init (fun s => s == "A") (fun _ => fun _ => ([] : List Nat))
        lexerConfDecorated parserConfA
    ∧ Nearley_NoLex.init (fun s => s == "A") (fun _ _ => fun _ => ([] : List Nat))
        lexerConfPlain parserConfA =
      Nearley_NoLex.init (fun s => s == "A") (fun _ _ => fun _ => ([] : List Nat))
        lexerConfDecorated parserConfA := by
  have h := scannerless_independent_of_ignore_postlex Nat Nat (fun s => s == "A")
    (fun _ => fun _ => ([] : List Nat)) (fun _ _ => fun _ => ([] : List Nat))
    lexerConfPlain lexerConfDecorated parserConfA rfl
  exact ⟨h.1, h.2.1⟩


/-- Shape of `Earley_NoLex._prepare_expansion` on a nonterminal head. -/
theorem earley_nolex_prep_cons_nonterm (isTerm : String → Bool)
    (tbl : List (String × TokenDef)) (sym : String) (rest : List String)
    (hterm : isTerm sym = false) :
    Earley_NoLex.prepare_expansion isTerm tbl (sym :: rest) =
      (match Earley_NoLex.prepare_expansion isTerm tbl rest with
       | Except.error e => Except.error e
       | Except.ok res => Except.ok (EScanSym.nt sym :: res)) := by
  simp [Earley_NoLex.prepare_expansion, hterm]

/-- Shape of `Earley_NoLex._prepare_expansion` on a terminal head found in
the table. -/
theorem earley_nolex_prep_cons_term (isTerm : String → Bool)
    (tbl : List (String × TokenDef)) (sym : String) (rest : List String)
    (hterm : isTerm sym = true) (t : TokenDef)
    (ht : List.lookup sym tbl.reverse = some t) :
    Earley_NoLex.prepare_expansion isTerm tbl (sym :: rest) =
      (if t.width = (1, 1) then
        (match Earley_NoLex.prepare_expansion isTerm tbl rest with
         | Except.error e => Except.error e
         | Except.ok res => Except.ok (EScanSym.tok t :: res))
       else Except.error (PyError.grammarError t.pattern t.width)) := by
  simp [Earley_NoLex.prepare_expansion, hterm, pyDictGet, ht]

/-- When every terminal of the expansion is in the table and none has a bad
width, `Earley_NoLex._prepare_expansion` succeeds. -/
theorem earley_nolex_prep_ok (isTerm : String → Bool) (tbl : List (String × TokenDef))
    (expansion : List String) (hcov : expansionCovered isTerm tbl expansion = true)
    (hbad : expansionBadWidth isTerm tbl expansion = false) :
    ∃ l, Earley_NoLex.prepare_expansion isTerm tbl expansion = Except.ok l := by
  induction expansion with
  | nil => exact ⟨[], rfl⟩
  | cons sym rest ih =>
    simp only [expansionCovered, List.all_cons, Bool.and_eq_true] at hcov
    simp only [expansionBadWidth, List.any_cons, Bool.or_eq_false_iff] at hbad
    obtain ⟨l, hl⟩ := ih hcov.2 hbad.2
    cases hterm : isTerm sym with
    | false =>
      refine ⟨EScanSym.nt sym :: l, ?_⟩
      rw [earley_nolex_prep_cons_nonterm isTerm tbl sym rest hterm, hl]
    | true =>
      have hsome := hcov.1
      rw [hterm] at hsome
      simp only [Bool.not_true, Bool.false_or] at hsome
      obtain ⟨t, ht⟩ := Option.isSome_iff_exists.mp hsome
      have hb1 := hbad.1
      rw [hterm] at hb1
      simp only [Bool.true_and, ht] at hb1
      have hw : t.width = (1, 1) := not_ne_iff.mp (of_decide_eq_false hb1)
      refine ⟨EScanSym.tok t :: l, ?_⟩
      rw [earley_nolex_prep_cons_term isTerm tbl sym rest hterm t ht, if_pos hw, hl]

/-- When every terminal of the expansion is in the table and some terminal
has a bad width, `Earley_NoLex._prepare_expansion` raises the grammar
error. -/
theorem earley_nolex_prep_gram_err (isTerm : String → Bool)
    (tbl : List (String × TokenDef)) (expansion : List String)
    (hcov : expansionCovered isTerm tbl expansion = true)
    (hbad : expansionBadWidth isTerm tbl expansion = true) :
    ∃ p w, Earley_NoLex.prepare_expansion isTerm tbl expansion =
      Except.error (PyError.grammarError p w) := by
  induction expansion with
  | nil => simp [expansionBadWidth] at hbad
  | cons sym rest ih =>
    simp only [expansionCovered, List.all_cons, Bool.and_eq_true] at hcov
    simp only [expansionBadWidth, List.any_cons, Bool.or_eq_true] at hbad
    cases hterm : isTerm sym with
    | false =>
      have hrest : expansionBadWidth isTerm tbl rest = true := by
        rcases hbad with hhead | hr
        · rw [hterm] at hhead
          simp at hhead
        · exact hr
      obtain ⟨p, w, hl⟩ := ih hcov.2 hrest
      refine ⟨p, w, ?_⟩
      rw [earley_nolex_prep_cons_nonterm isTerm tbl sym rest hterm, hl]
    | true =>
      have hsome := hcov.1
      rw [hterm] at hsome
      simp only [Bool.not_true, Bool.false_or] at hsome
      obtain ⟨t, ht⟩ := Option.isSome_iff_exists.mp hsome
      cases hdec : decide (t.width ≠ (1, 1)) with
      | true =>
        have hne : t.width ≠ (1, 1) := of_decide_eq_true hdec
        refine ⟨t.pattern, t.width, ?_⟩
        rw [earley_nolex_prep_cons_term isTerm tbl sym rest hterm t ht, if_neg hne]
      | false =>
        have hw : t.width = (1, 1) := not_ne_iff.mp (of_decide_eq_false hdec)
        have hrest : expansionBadWidth isTerm tbl rest = true := by
          rcases hbad with hhead | hr
          · rw [hterm, ht] at hhead
            simp only [Bool.true_and] at hhead
            rw [hhead] at hdec
            exact absurd hdec (by simp)
          · exact hr
        obtain ⟨p, w, hl⟩ := ih hcov.2 hrest
        refine ⟨p, w, ?_⟩
        rw [earley_nolex_prep_cons_term isTerm tbl sym rest hterm t ht, if_pos hw, hl]

/-- Shape of `Nearley_NoLex._prepare_expansion` on a nonterminal head. -/
theorem nearley_nolex_prep_cons_nonterm (isTerm : String → Bool)
    (tbl : List (String × TokenDef)) (sym : String) (rest : List String)
    (hterm : isTerm sym = false) :
    Nearley_NoLex.prepare_expansion isTerm tbl (sym :: rest) =
      (match Nearley_NoLex.prepare_expansion isTerm tbl rest with
       | Except.error e => Except.error e
       | Except.ok res => Except.ok (NScanSym.nt sym :: res)) := by
  simp [Nearley_NoLex.prepare_expansion, hterm]

/-- Shape of `Nearley_NoLex._prepare_expansion` on a terminal head found in
the table. -/
theorem nearley_nolex_prep_cons_term (isTerm : String → Bool)
    (tbl : List (String × TokenDef)) (sym : String) (rest : List String)
    (hterm : isTerm sym = true) (t : TokenDef)
    (ht : List.lookup sym tbl.reverse = some t) :
    Nearley_NoLex.prepare_expansion isTerm tbl (sym :: rest) =
      (if t.width = (1, 1) then
        (match Nearley_NoLex.prepare_expansion isTerm tbl rest with
         | Except.error e => Except.error e
         | Except.ok res => Except.ok (NScanSym.tok sym t :: res))
       else Except.error (PyError.grammarError t.pattern t.width)) := by
  simp [Nearley_NoLex.prepare_expansion, hterm, pyDictGet, ht]

/-- When every terminal of the expansion is in the table and none has a bad
width, `Nearley_NoLex._prepare_expansion` succeeds. -/
theorem nearley_nolex_prep_ok (isTerm : String → Bool)
    (tbl : List (String × TokenDef)) (expansion : List String)
    (hcov : expansionCovered isTerm tbl expansion = true)
    (hbad : expansionBadWidth isTerm tbl expansion = false) :
    ∃ l, Nearley_NoLex.prepare_expansion isTerm tbl expansion = Except.ok l := by
  induction expansion with
  | nil => exact ⟨[], rfl⟩
  | cons sym rest ih =>
    simp only [expansionCovered, List.all_cons, Bool.and_eq_true] at hcov
    simp only [expansionBadWidth, List.any_cons, Bool.or_eq_false_iff] at hbad
    obtain ⟨l, hl⟩ := ih hcov.2 hbad.2
    cases hterm : isTerm sym with
    | false =>
      refine ⟨NScanSym.nt sym :: l, ?_⟩
      rw [nearley_nolex_prep_cons_nonterm isTerm tbl sym rest hterm, hl]
    | true =>
      have hsome := hcov.1
      rw [hterm] at hsome
      simp only [Bool.not_true, Bool.false_or] at hsome
      obtain ⟨t, ht⟩ := Option.isSome_iff_exists.mp hsome
      have hb1 := hbad.1
      rw [hterm] at hb1
      simp only [Bool.true_and, ht] at hb1
      have hw : t.width = (1, 1) := not_ne_iff.mp (of_decide_eq_false hb1)
      refine ⟨NScanSym.tok sym t :: l, ?_⟩
      rw [nearley_nolex_prep_cons_term isTerm tbl sym rest hterm t ht, if_pos hw, hl]

/-- When every terminal of the expansion is in the table and some terminal
has a bad width, `Nearley_NoLex._prepare_expansion` raises the grammar
error. -/
theorem nearley_nolex_prep_gram_err (isTerm : String → Bool)
    (tbl : List (String × TokenDef)) (expansion : List String)
    (hcov : expansionCovered isTerm tbl expansion = true)
    (hbad : expansionBadWidth isTerm tbl expansion = true) :
    ∃ p w, Nearley_NoLex.prepare_expansion isTerm tbl expansion =
      Except.error (PyError.grammarError p w) := by
  induction expansion with
  | nil => simp [expansionBadWidth] at hbad
  | cons sym rest ih =>
    simp only [expansionCovered, List.all_cons, Bool.and_eq_true] at hcov
    simp only [expansionBadWidth, List.any_cons, Bool.or_eq_true] at hbad
    cases hterm : isTerm sym with
    | false =>
      have hrest : expansionBadWidth isTerm tbl rest = true := by
        rcases hbad with hhead | hr
        · rw [hterm] at hhead
          simp at hhead
        · exact hr
      obtain ⟨p, w, hl⟩ := ih hcov.2 hrest
      refine ⟨p, w, ?_⟩
      rw [nearley_nolex_prep_cons_nonterm isTerm tbl sym rest hterm, hl]
    | true =>
      have hsome := hcov.1
      rw [hterm] at hsome
      simp only [Bool.not_true, Bool.false_or] at hsome
      obtain ⟨t, ht⟩ := Option.isSome_iff_exists.mp hsome
      cases hdec : decide (t.width ≠ (1, 1)) with
      | true =>
        have hne : t.width ≠ (1, 1) := of_decide_eq_true hdec
        refine ⟨t.pattern, t.width, ?_⟩
        rw [nearley_nolex_prep_cons_term isTerm tbl sym rest hterm t ht, if_neg hne]
      | false =>
        have hw : t.width = (1, 1) := not_ne_iff.mp (of_decide_eq_false hdec)
        have hrest : expansionBadWidth isTerm tbl rest = true := by
          rcases hbad with hhead | hr
          · rw [hterm, ht] at hhead
            simp only [Bool.true_and] at hhead
            rw [hhead] at hdec
            exact absurd hdec (by simp)
          · exact hr
        obtain ⟨p, w, hl⟩ := ih hcov.2 hrest
        refine ⟨p, w, ?_⟩
        rw [nearley_nolex_prep_cons_term isTerm tbl sym rest hterm t ht, if_pos hw, hl]

/-- When every terminal used by the rules is in the table and none has a
bad width, the rule translation of `Earley_NoLex.__init__` succeeds. -/
theorem earley_nolex_build_ok (isTerm : String → Bool)
    (tbl : List (String × TokenDef)) (rules : List (String × List String × String))
    (hcov : termsCovered isTerm tbl rules = true)
    (hbad : someBadWidth isTerm tbl rules = false) :
    ∃ rs, Earley_NoLex.buildRules isTerm tbl rules = Except.ok rs := by
  induction rules with
  | nil => exact ⟨[], rfl⟩
  | cons r rest ih =>
    simp only [termsCovered, List.all_cons, Bool.and_eq_true] at hcov
    simp only [someBadWidth, List.any_cons, Bool.or_eq_false_iff] at hbad
    obtain ⟨syms, hsyms⟩ := earley_nolex_prep_ok isTerm tbl r.2.1 hcov.1 hbad.1
    obtain ⟨rs, hrs⟩ := ih hcov.2 hbad.2
    refine ⟨(r.1, syms, r.2.2) :: rs, ?_⟩
    simp [Earley_NoLex.buildRules, hsyms, hrs]

/-- When every terminal used by the rules is in the table and some terminal
has a bad width, the rule translation of `Earley_NoLex.__init__` raises the
grammar error. -/
theorem earley_nolex_build_gram_err (isTerm : String → Bool)
    (tbl : List (String × TokenDef)) (rules : List (String × List String × String))
    (hcov : termsCovered isTerm tbl rules = true)
    (hbad : someBadWidth isTerm tbl rules = true) :
    ∃ p w, Earley_NoLex.buildRules isTerm tbl rules =
      Except.error (PyError.grammarError p w) := by
  induction rules with
  | nil => simp [someBadWidth] at hbad
  | cons r rest ih =>
    simp only [termsCovered, List.all_cons, Bool.and_eq_true] at hcov
    simp only [someBadWidth, List.any_cons, Bool.or_eq_true] at hbad
    cases hbr : expansionBadWidth isTerm tbl r.2.1 with
    | true =>
      obtain ⟨p, w, hp⟩ := earley_nolex_prep_gram_err isTerm tbl r.2.1 hcov.1 hbr
      refine ⟨p, w, ?_⟩
      simp [Earley_NoLex.buildRules, hp]
    | false =>
      have hrest : someBadWidth isTerm tbl rest = true := by
        rcases hbad with hhead | hr
        · rw [hbr] at hhead
          exact absurd hhead (by simp)
        · exact hr
      obtain ⟨syms, hsyms⟩ := earley_nolex_prep_ok isTerm tbl r.2.1 hcov.1 hbr
      obtain ⟨p, w, hrs⟩ := ih hcov.2 hrest
      refine ⟨p, w, ?_⟩
      simp [Earley_NoLex.buildRules, hsyms, hrs]

/-- When additionally every action identifier resolves, the rule
translation of `Nearley_NoLex.__init__` succeeds under the same width
conditions. -/
theorem nearley_nolex_build_ok {γ : Type} (isTerm : String → Bool)
    (tbl : List (String × TokenDef)) (cb : Callback γ)
    (rules : List (String × List String × String))
    (hcov : termsCovered isTerm tbl rules = true)
    (hbad : someBadWidth isTerm tbl rules = false)
    (hact : actionsResolve cb rules = true) :
    ∃ rs, Nearley_NoLex.buildRules isTerm tbl cb rules = Except.ok rs := by
  induction rules with
  | nil => exact ⟨[], rfl⟩
  | cons r rest ih =>
    simp only [termsCovered, List.all_cons, Bool.and_eq_true] at hcov
    simp only [someBadWidth, List.any_cons, Bool.or_eq_false_iff] at hbad
    simp only [actionsResolve, List.all_cons, Bool.and_eq_true] at hact
    obtain ⟨syms, hsyms⟩ := nearley_nolex_prep_ok isTerm tbl r.2.1 hcov.1 hbad.1
    obtain ⟨f, hf⟩ := Option.isSome_iff_exists.mp hact.1
    obtain ⟨rs, hrs⟩ := ih hcov.2 hbad.2 hact.2
    refine ⟨{ name := r.1, symbols := syms, postprocess := f } :: rs, ?_⟩
    simp [Nearley_NoLex.buildRules, hsyms, getattrE, hf, hrs]

/-- When every terminal used by the rules is in the table, every action
identifier resolves and some terminal has a bad width, the rule translation
of `Nearley_NoLex.__init__` raises the grammar error. -/
theorem nearley_nolex_build_gram_err {γ : Type} (isTerm : String → Bool)
    (tbl : List (String × TokenDef)) (cb : Callback γ)
    (rules : List (String × List String × String))
    (hcov : termsCovered isTerm tbl rules = true)
    (hbad : someBadWidth isTerm tbl rules = true)
    (hact : actionsResolve cb rules = true) :
    ∃ p w, Nearley_NoLex.buildRules isTerm tbl cb rules =
      Except.error (PyError.grammarError p w) := by
  induction rules with
  | nil => simp [someBadWidth] at hbad
  | cons r rest ih =>
    simp only [termsCovered, List.all_cons, Bool.and_eq_true] at hcov
    simp only [someBadWidth, List.any_cons, Bool.or_eq_true] at hbad
    simp only [actionsResolve, List.all_cons, Bool.and_eq_true] at hact
    cases hbr : expansionBadWidth isTerm tbl r.2.1 with
    | true =>
      obtain ⟨p, w, hp⟩ := nearley_nolex_prep_gram_err isTerm tbl r.2.1 hcov.1 hbr
      refine ⟨p, w, ?_⟩
      simp [Nearley_NoLex.buildRules, hp]
    | false =>
      have hrest : someBadWidth isTerm tbl rest = true := by
        rcases hbad with hhead | hr
        · rw [hbr] at hhead
          exact absurd hhead (by simp)
        · exact hr
      obtain ⟨syms, hsyms⟩ := nearley_nolex_prep_ok isTerm tbl r.2.1 hcov.1 hbr
      obtain ⟨f, hf⟩ := Option.isSome_iff_exists.mp hact.1
      obtain ⟨p, w, hrs⟩ := ih hcov.2 hrest hact.2
      refine ⟨p, w, ?_⟩
      simp [Nearley_NoLex.buildRules, hsyms, getattrE, hf, hrs]

/-- C3: provided every terminal used by the rules has an entry in the token
table and (for the JS-compatible variant) every action identifier resolves,
scannerless frontend construction fails with a grammar error exactly when
some terminal occurring in a rule's right-hand side has a pattern width
other than `(1, 1)`, and succeeds exactly when no such terminal exists. -/
theorem scannerless_width_precondition (γ τ : Type) (isTerm : String → Bool)
    (mkEarley : ParserConf EScanSym γ → (String → List τ))
    (mkNearley : List (NearleyRule NScanSym γ) → String → (String → List τ))
    (lexer_conf : LexerConf) (parser_conf : ParserConf String γ)
    (hcov : termsCovered isTerm (tokenByName lexer_conf.tokens) parser_conf.rules = true)
    (hact : actionsResolve parser_conf.callback parser_conf.rules = true) :
    ((∃ p w, Earley_NoLex.init isTerm mkEarley lexer_conf parser_conf =
        Except.error (PyError.grammarError p w)) ↔
      someBadWidth isTerm (tokenByName lexer_conf.tokens) parser_conf.rules = true)
    ∧ ((∃ f, Earley_NoLex.init isTerm mkEarley lexer_conf parser_conf = Except.ok f) ↔
      someBadWidth isTerm (tokenByName lexer_conf.tokens) parser_conf.rules = false)
    ∧ ((∃ p w, Nearley_NoLex.init isTerm mkNearley lexer_conf parser_conf =
        Except.error (PyError.grammarError p w)) ↔
      someBadWidth isTerm (tokenByName lexer_conf.tokens) parser_conf.rules = true)
    ∧ ((∃ f, Nearley_NoLex.init isTerm mkNearley lexer_conf parser_conf = Except.ok f) ↔
      someBadWidth isTerm (tokenByName lexer_conf.tokens) parser_conf.rules = false) := by
  cases hb : someBadWidth isTerm (tokenByName lexer_conf.tokens) parser_conf.rules with
  | true =>
    obtain ⟨p, w, he⟩ :=
      earley_nolex_build_gram_err isTerm (tokenByName lexer_conf.tokens)
        parser_conf.rules hcov hb
    obtain ⟨p2, w2, hn⟩ :=
      nearley_nolex_build_gram_err isTerm (tokenByName lexer_conf.tokens)
        parser_conf.callback parser_conf.rules hcov hb hact
    have hei : Earley_NoLex.init isTerm mkEarley lexer_conf parser_conf =
        Except.error (PyError.grammarError p w) := by
      simp [Earley_NoLex.init, he]
    have hni : Nearley_NoLex.init isTerm mkNearley lexer_conf parser_conf =
        Except.error (PyError.grammarError p2 w2) := by
      simp [Nearley_NoLex.init, hn]
    refine ⟨?_, ?_, ?_, ?_⟩
    · exact iff_of_true ⟨p, w, hei⟩ rfl
    · refine iff_of_false ?_ (by simp)
      rintro ⟨f, hf⟩
      rw [hei] at hf
      exact Except.noConfusion hf
    · exact iff_of_true ⟨p2, w2, hni⟩ rfl
    · refine iff_of_false ?_ (by simp)
      rintro ⟨f, hf⟩
      rw [hni] at hf
      exact Except.noConfusion hf
  | false =>
    obtain ⟨rs, he⟩ :=
      earley_nolex_build_ok isTerm (tokenByName lexer_conf.tokens)
        parser_conf.rules hcov hb
    obtain ⟨rs2, hn⟩ :=
      nearley_nolex_build_ok isTerm (tokenByName lexer_conf.tokens)
        parser_conf.callback parser_conf.rules hcov hb hact
    have hei : Earley_NoLex.init isTerm mkEarley lexer_conf parser_conf =
        Except.ok { token_by_name := tokenByName lexer_conf.tokens
                    parser := mkEarley { rules := rs
                                         callback := parser_conf.callback
                                         start := parser_conf.start } } := by
      simp [Earley_NoLex.init, he]
    have hni : Nearley_NoLex.init isTerm mkNearley lexer_conf parser_conf =
        Except.ok { token_by_name := tokenByName lexer_conf.tokens
                    parser := mkNearley rs2 parser_conf.start } := by
      simp [Nearley_NoLex.init, hn]
    refine ⟨?_, ?_, ?_, ?_⟩
    · refine iff_of_false ?_ (by simp)
      rintro ⟨p, w, hf⟩
      rw [hei] at hf
      exact Except.noConfusion hf
    · exact iff_of_true ⟨_, hei⟩ rfl
    · refine iff_of_false ?_ (by simp)
      rintro ⟨p, w, hf⟩
      rw [hni] at hf
      exact Except.noConfusion hf
    · exact iff_of_true ⟨_, hni⟩ rfl

/-- C3 witness: with the one-rule grammar over terminal `A`, construction
of both scannerless frontends fails with a grammar error when `A` has
pattern width `(2, 2)` and succeeds when `A` has width `(1, 1)`. -/
theorem scannerless_width_precondition_witness :
    (∃ p w, Earley_NoLex.init (fun s => s == "A") (fun _ => fun _ => ([] : List Nat))
        lexerConfBad parserConfA = Except.error (PyError.grammarError p w))
    ∧ (∃ f, Earley_NoLex.init (fun s => s == "A") (fun _ => fun _ => ([] : List Nat))
        lexerConfPlain parserConfA = Except.ok f)
    ∧ (∃ p w, Nearley_NoLex.init (fun s => s == "A")
        (fun _ _ => fun _ => ([] : List Nat)) lexerConfBad parserConfA =
        Except.error (PyError.grammarError p w))
    ∧ (∃ f, Nearley_NoLex.init (fun s => s == "A")
        (fun _ _ => fun _ => ([] : List Nat)) lexerConfPlain parserConfA =
        Except.ok f) := by
  have hbadc := scannerless_width_precondition Nat Nat (fun s => s == "A")
    (fun _ => fun _ => ([] : List Nat)) (fun _ _ => fun _ => ([] : List Nat))
    lexerConfBad parserConfA (by decide) (by decide)
  have hgoodc := scannerless_width_precondition Nat Nat (fun s => s == "A")
    (fun _ => fun _ => ([] : List Nat)) (fun _ _ => fun _ => ([] : List Nat))
    lexerConfPlain parserConfA (by decide) (by decide)
  exact ⟨hbadc.1.mpr (by decide), hgoodc.2.1.mpr (by decide),
    hbadc.2.2.1.mpr (by decide), hgoodc.2.2.2.mpr (by decide)⟩

/-- `pyDictGet` fails only with a key error. -/
theorem pyDictGet_error_eq {α : Type} (l : List (String × α)) (k : String)
    (e : PyError) (h : pyDictGet l k = Except.error e) : e = PyError.keyError := by
  unfold pyDictGet at h
  cases hl : l.reverse.lookup k with
  | some v =>
    rw [hl] at h
    exact absurd h (by simp)
  | none =>
    rw [hl] at h
    simp at h
    exact h.symm

/-- When every action identifier resolves, the rule translation of the
lexed `Nearley.__init__` succeeds. -/
theorem nearley_build_ok {γ : Type} (isTerm : String → Bool) (cb : Callback γ)
    (rules : List (String × List String × String))
    (hact : actionsResolve cb rules = true) :
    ∃ rs, Nearley.buildRules isTerm cb rules = Except.ok rs := by
  induction rules with
  | nil => exact ⟨[], rfl⟩
  | cons r rest ih =>
    simp only [actionsResolve, List.all_cons, Bool.and_eq_true] at hact
    obtain ⟨f, hf⟩ := Option.isSome_iff_exists.mp hact.1
    obtain ⟨rs, hrs⟩ := ih hact.2
    refine ⟨{ name := r.1, symbols := Nearley.prepare_expansion isTerm r.2.1,
              postprocess := f } :: rs, ?_⟩
    simp [Nearley.buildRules, getattrE, hf, hrs]

/-- When some action identifier does not resolve, the rule translation of
the lexed `Nearley.__init__` raises the attribute error. -/
theorem nearley_build_attr_err {γ : Type} (isTerm : String → Bool) (cb : Callback γ)
    (rules : List (String × List String × String))
    (hact : actionsResolve cb rules = false) :
    Nearley.buildRules isTerm cb rules = Except.error PyError.attributeError := by
  induction rules with
  | nil => simp [actionsResolve] at hact
  | cons r rest ih =>
    cases hl : cb.attrs.lookup r.2.2 with
    | none => simp [Nearley.buildRules, getattrE, hl]
    | some f =>
      simp only [actionsResolve, List.all_cons] at hact
      rw [hl] at hact
      simp only [Option.isSome_some, Bool.true_and] at hact
      have hrs := ih hact
      simp [Nearley.buildRules, getattrE, hl, hrs]

/-- When some action identifier does not resolve, the rule translation of
`Nearley_NoLex.__init__` fails (with the attribute error, or earlier with a
lookup or width error from the same or an earlier rule). -/
theorem nearley_nolex_build_fails {γ : Type} (isTerm : String → Bool)
    (tbl : List (String × TokenDef)) (cb : Callback γ)
    (rules : List (String × List String × String))
    (hact : actionsResolve cb rules = false) :
    ∃ e, Nearley_NoLex.buildRules isTerm tbl cb rules = Except.error e := by
  induction rules with
  | nil => simp [actionsResolve] at hact
  | cons r rest ih =>
    cases hp : Nearley_NoLex.prepare_expansion isTerm tbl r.2.1 with
    | error e => exact ⟨e, by simp [Nearley_NoLex.buildRules, hp]⟩
    | ok syms =>
      cases hl : cb.attrs.lookup r.2.2 with
      | none =>
        exact ⟨PyError.attributeError, by
          simp [Nearley_NoLex.buildRules, hp, getattrE, hl]⟩
      | some f =>
        simp only [actionsResolve, List.all_cons] at hact
        rw [hl] at hact
        simp only [Option.isSome_some, Bool.true_and] at hact
        obtain ⟨e, he⟩ := ih hact
        exact ⟨e, by simp [Nearley_NoLex.buildRules, hp, getattrE, hl, he]⟩

/-- `Earley_NoLex._prepare_expansion` never raises an attribute error: it
never consults the callback object. -/
theorem earley_nolex_prep_no_attr (isTerm : String → Bool)
    (tbl : List (String × TokenDef)) (expansion : List String) (e : PyError)
    (h : Earley_NoLex.prepare_expansion isTerm tbl expansion = Except.error e) :
    e ≠ PyError.attributeError := by
  induction expansion with
  | nil => exact absurd h (by simp [Earley_NoLex.prepare_expansion])
  | cons sym rest ih =>
    cases hterm : isTerm sym with
    | false =>
      rw [earley_nolex_prep_cons_nonterm isTerm tbl sym rest hterm] at h
      cases hp : Earley_NoLex.prepare_expansion isTerm tbl rest with
      | error e0 =>
        simp only [hp] at h
        cases h
        exact ih hp
      | ok res =>
        simp [hp] at h
    | true =>
      cases hq : List.lookup sym tbl.reverse with
      | none =>
        have hkey : Earley_NoLex.prepare_expansion isTerm tbl (sym :: rest) =
            Except.error PyError.keyError := by
          simp [Earley_NoLex.prepare_expansion, hterm, pyDictGet, hq]
        rw [hkey] at h
        cases h
        simp
      | some t =>
        rw [earley_nolex_prep_cons_term isTerm tbl sym rest hterm t hq] at h
        by_cases hw : t.width = (1, 1)
        · rw [if_pos hw] at h
          cases hp : Earley_NoLex.prepare_expansion isTerm tbl rest with
          | error e0 =>
            simp only [hp] at h
            cases h
            exact ih hp
          | ok res =>
            simp [hp] at h
        · rw [if_neg hw] at h
          cases h
          simp

/-- The rule translation of `Earley_NoLex.__init__` never raises an
attribute error. -/
theorem earley_nolex_build_no_attr (isTerm : String → Bool)
    (tbl : List (String × TokenDef))
    (rules : List (String × List String × String)) (e : PyError)
    (h : Earley_NoLex.buildRules isTerm tbl rules = Except.error e) :
    e ≠ PyError.attributeError := by
  induction rules with
  | nil => exact absurd h (by simp [Earley_NoLex.buildRules])
  | cons r rest ih =>
    cases hp : Earley_NoLex.prepare_expansion isTerm tbl r.2.1 with
    | error e0 =>
      simp only [Earley_NoLex.buildRules, hp] at h
      cases h
      exact earley_nolex_prep_no_attr isTerm tbl r.2.1 _ hp
    | ok syms =>
      cases hb : Earley_NoLex.buildRules isTerm tbl rest with
      | error e0 =>
        simp only [Earley_NoLex.buildRules, hp, hb] at h
        cases h
        exact ih hb
      | ok rs =>
        simp [Earley_NoLex.buildRules, hp, hb] at h

/-- On success, the rule translation of `Earley_NoLex.__init__` keeps every
rule's action identifier unchanged and in order. -/
theorem earley_nolex_build_preserves_actions (isTerm : String → Bool)
    (tbl : List (String × TokenDef))
    (rules : List (String × List String × String))
    (rs : List (String × List EScanSym × String))
    (h : Earley_NoLex.buildRules isTerm tbl rules = Except.ok rs) :
    rs.map (fun r => r.2.2) = rules.map (fun r => r.2.2) := by
  induction rules generalizing rs with
  | nil =>
    simp only [Earley_NoLex.buildRules] at h
    cases h
    rfl
  | cons r rest ih =>
    cases hp : Earley_NoLex.prepare_expansion isTerm tbl r.2.1 with
    | error e0 => simp [Earley_NoLex.buildRules, hp] at h
    | ok syms =>
      cases hb : Earley_NoLex.buildRules isTerm tbl rest with
      | error e0 => simp [Earley_NoLex.buildRules, hp, hb] at h
      | ok rs0 =>
        simp only [Earley_NoLex.buildRules, hp, hb] at h
        cases h
        simp [ih rs0 hb]

/-- C10: the JS-compatible (Nearley) frontends resolve every rule's action
identifier against the callback object during construction — the lexed
variant succeeds exactly when all identifiers resolve and raises the
attribute error otherwise, and the scannerless variant fails whenever some
identifier does not resolve — while the native (Earley) frontends pass the
action identifiers through unresolved: the lexed variant's construction is
total and hands the engine the original identifiers, and the scannerless
variant's rule translation never raises an attribute error and preserves
the identifiers on success. -/
theorem nearley_resolves_actions_eagerly (γ τ : Type) (isTerm : String → Bool)
    (mkLexer : List TokenDef → List String → (String → List Token))
    (mkNearley : List (NearleyRule NSym γ) → String → (List Token → List τ))
    (mkNearleyNL : List (NearleyRule NScanSym γ) → String → (String → List τ))
    (mkEarley : ParserConf ESym γ → (List Token → List τ))
    (lexer_conf : LexerConf) (parser_conf : ParserConf String γ) :
    ((∃ f, Nearley.init isTerm mkLexer mkNearley lexer_conf parser_conf =
        Except.ok f) ↔
      actionsResolve parser_conf.callback parser_conf.rules = true)
    ∧ (actionsResolve parser_conf.callback parser_conf.rules = false →
        Nearley.init isTerm mkLexer mkNearley lexer_conf parser_conf =
          Except.error PyError.attributeError)
    ∧ (actionsResolve parser_conf.callback parser_conf.rules = false →
        ∃ e, Nearley_NoLex.init isTerm mkNearleyNL lexer_conf parser_conf =
          Except.error e)
    ∧ (Earley.mkRules isTerm parser_conf.rules).map (fun r => r.2.2) =
        parser_conf.rules.map (fun r => r.2.2)
    ∧ (Earley.init isTerm mkLexer mkEarley lexer_conf parser_conf).parser =
        mkEarley { rules := Earley.mkRules isTerm parser_conf.rules
                   callback := parser_conf.callback
                   start := parser_conf.start }
    ∧ (∀ e, Earley_NoLex.buildRules isTerm (tokenByName lexer_conf.tokens)
        parser_conf.rules = Except.error e → e ≠ PyError.attributeError)
    ∧ (∀ rs, Earley_NoLex.buildRules isTerm (tokenByName lexer_conf.tokens)
        parser_conf.rules = Except.ok rs →
        rs.map (fun r => r.2.2) = parser_conf.rules.map (fun r => r.2.2)) := by
  refine ⟨?_, ?_, ?_, ?_, rfl, ?_, ?_⟩
  · constructor
    · rintro ⟨f, hf⟩
      cases hact : actionsResolve parser_conf.callback parser_conf.rules with
      | true => rfl
      | false =>
        have hb := nearley_build_attr_err isTerm parser_conf.callback
          parser_conf.rules hact
        rw [show Nearley.init isTerm mkLexer mkNearley lexer_conf parser_conf =
            Except.error PyError.attributeError by simp [Nearley.init, hb]] at hf
        exact Except.noConfusion hf
    · intro hact
      obtain ⟨rs, hrs⟩ := nearley_build_ok isTerm parser_conf.callback
        parser_conf.rules hact
      refine ⟨{ toWithLexer := WithLexer.init mkLexer lexer_conf,
                parser := mkNearley rs parser_conf.start }, ?_⟩
      simp [Nearley.init, hrs]
  · intro hact
    have hb := nearley_build_attr_err isTerm parser_conf.callback
      parser_conf.rules hact
    simp [Nearley.init, hb]
  · intro hact
    obtain ⟨e, he⟩ := nearley_nolex_build_fails isTerm
      (tokenByName lexer_conf.tokens) parser_conf.callback parser_conf.rules hact
    exact ⟨e, by simp [Nearley_NoLex.init, he]⟩
  · simp [Earley.mkRules, List.map_map]
  · intro e he
    exact earley_nolex_build_no_attr isTerm (tokenByName lexer_conf.tokens)
      parser_conf.rules e he
  · intro rs hrs
    exact earley_nolex_build_preserves_actions isTerm
      (tokenByName lexer_conf.tokens) parser_conf.rules rs hrs
